import Mathlib

/-!
Shallow embedding of the piano-roll component
(`src/components/enhanced-interactive-piano-roll-with-pythagorean-chords.tsx`).

Pixel coordinates, MIDI times and frequencies are modelled as rationals;
grid indices and durations as integers (JavaScript numbers produced by
`Math.floor` / `Math.ceil`).  React state is gathered in `PianoRollState`
and each event handler becomes a state-transition function.
-/

namespace PianoRoll

/-- The chromatic pitch-class names, `NOTES` in the source. -/
def NOTES : List String :=
  ["C", "C#", "D", "D#"] ++ ["E", "F", "F#", "G"] ++ ["G#", "A", "A#", "B"]

/-- Source constant `OCTAVES = 7`. -/
def OCTAVES : Nat := 7

/-- Source constant `MEASURES = 4`. -/
def MEASURES : Int := 4

/-- Source constant `BEATS_PER_MEASURE = 4`. -/
def BEATS_PER_MEASURE : Int := 4

/-- Source constant `CELL_SIZE = 25` (pixels per grid cell). -/
def CELL_SIZE : ℚ := 25

/-- The fixed 7-octave pitch table, `allNotes` in the source:
`Array.from({length: OCTAVES}, (_, octave) => NOTES.map(note => note + (octave+2))).flat()`. -/
def allNotes : List String :=
  ((List.range OCTAVES).map (fun octave =>
    NOTES.map (fun note => note ++ toString (octave + 2)))).flatten

/-- A note record, the `Note` interface of the source. -/
structure Note where
  id : String
  note : String
  start : Int
  duration : Int
  rowIndex : Int
  colIndex : Int
  selected : Bool
deriving DecidableEq, Repr

/-- The component state used by the handlers the claims are about. -/
structure PianoRollState where
  notes : List Note
  isDragging : Bool
  isResizing : Bool
  selectedNote : Option Note
  numberOfColumns : Int
deriving DecidableEq, Repr

/-- The initial column count, `MEASURES * BEATS_PER_MEASURE * 4 = 64`. -/
def initialColumns : Int := MEASURES * BEATS_PER_MEASURE * 4

/-- JavaScript array indexing `l[i]` on the pitch table: an out-of-range
index yields `undefined`, modelled by the sentinel string. -/
def jsGet (l : List String) (i : Int) : String :=
  if i < 0 then "undefined" else l.getD i.toNat "undefined"

/-- JavaScript `l.indexOf s`: index of the first occurrence, `-1` if absent. -/
def jsIndexOf (l : List String) (s : String) : Int :=
  match l.findIdx? (fun t => t == s) with
  | some n => (n : Int)
  | none => -1

/-- The grid column of pixel abscissa `x`: `Math.floor (x / CELL_SIZE)`. -/
def gridCol (x : ℚ) : Int := ⌊x / CELL_SIZE⌋

/-- The grid row of pixel ordinate `y`: `Math.floor (y / CELL_SIZE)`. -/
def gridRow (y : ℚ) : Int := ⌊y / CELL_SIZE⌋

/-- The hit-test predicate of `handleCanvasClick` / `handleMouseDown`:
`note.rowIndex === rowIndex && colIndex >= note.colIndex &&
 colIndex < note.colIndex + note.duration`. -/
def hitTest (rowIndex colIndex : Int) (note : Note) : Bool :=
  note.rowIndex == rowIndex &&
    decide (note.colIndex ≤ colIndex) &&
    decide (colIndex < note.colIndex + note.duration)

/-- Clearing a note's selection flag. -/
def deselect (n : Note) : Note := { n with selected := false }

/-- Handler `handleCanvasClick` (source lines 222-263).  The fresh id
`note-${Date.now()}` is passed in as `newId`. -/
def handleCanvasClick (x y : ℚ) (newId : String) (s : PianoRollState) :
    PianoRollState :=
  let colIndex := gridCol x
  let rowIndex := gridRow y
  match s.notes.find? (hitTest rowIndex colIndex) with
  | some clickedNote =>
      { s with
        selectedNote := some clickedNote
        notes := s.notes.map (fun note =>
          { note with selected := note.id == clickedNote.id }) }
  | none =>
      if !s.isDragging && !s.isResizing then
        let newNote : Note :=
          { id := newId, note := jsGet allNotes rowIndex, start := colIndex,
            duration := 1, rowIndex := rowIndex, colIndex := colIndex,
            selected := true }
        { s with
          notes := s.notes.map deselect ++ [newNote]
          selectedNote := some newNote
          numberOfColumns :=
            if s.numberOfColumns - 1 ≤ colIndex then s.numberOfColumns + 50
            else s.numberOfColumns }
      else s

/-- Handler `handleMouseDown` (source lines 265-289). -/
def handleMouseDown (x y : ℚ) (s : PianoRollState) : PianoRollState :=
  let colIndex := gridCol x
  let rowIndex := gridRow y
  match s.notes.find? (hitTest rowIndex colIndex) with
  | some clickedNote =>
      let isResizeHandle :=
        decide ((clickedNote.duration : ℚ) * CELL_SIZE - 5 <
          x - (clickedNote.colIndex : ℚ) * CELL_SIZE)
      if isResizeHandle then
        { s with selectedNote := some clickedNote, isResizing := true }
      else
        { s with selectedNote := some clickedNote, isDragging := true }
  | none => s

/-- Handler `handleMouseMove` (source lines 291-317): drag moves the selected note
to the pointer's cell and re-derives its pitch; resize sets its duration to
`Math.max(1, newColIndex - selectedNote.colIndex + 1)`. -/
def handleMouseMove (x y : ℚ) (s : PianoRollState) : PianoRollState :=
  match s.selectedNote with
  | none => s
  | some sel =>
    if s.isDragging then
      let newColIndex := gridCol x
      let newRowIndex := gridRow y
      { s with notes := s.notes.map (fun note =>
          if note.id == sel.id then
            { note with colIndex := newColIndex, rowIndex := newRowIndex,
                        note := jsGet allNotes newRowIndex }
          else note) }
    else if s.isResizing then
      let newColIndex := gridCol x
      let newDuration := max 1 (newColIndex - sel.colIndex + 1)
      { s with notes := s.notes.map (fun note =>
          if note.id == sel.id then { note with duration := newDuration }
          else note) }
    else s

/-- Handler `handleMouseUp`: ends drag and resize modes unconditionally. -/
def handleMouseUp (s : PianoRollState) : PianoRollState :=
  { s with isDragging := false, isResizing := false }

/-- Handler `clearAllNotes` (source lines 354-357). -/
def clearAllNotes (s : PianoRollState) : PianoRollState :=
  { s with notes := [] }

/-- Handler `addRandomNote` (source lines 359-376); `r1 r2 r3` are the three
`Math.random()` draws, each in `[0, 1)`. -/
def addRandomNote (r1 r2 r3 : ℚ) (newId : String) (s : PianoRollState) :
    PianoRollState :=
  let rowIndex := ⌊r1 * (allNotes.length : ℚ)⌋
  let colIndex := ⌊r2 * (s.numberOfColumns : ℚ)⌋
  let duration := ⌊r3 * 4⌋ + 1
  { s with notes := s.notes ++
      [{ id := newId, note := jsGet allNotes rowIndex, start := colIndex,
         duration := duration, rowIndex := rowIndex, colIndex := colIndex,
         selected := false }] }

/-- A note decoded by the external MIDI library: pitch name, onset time and
length, in the library's (fractional) time units. -/
structure MidiNote where
  name : String
  time : ℚ
  duration : ℚ
deriving DecidableEq, Repr

/-- A successfully parsed MIDI file: a list of tracks of decoded notes. -/
structure MidiFile where
  tracks : List (List MidiNote)
deriving DecidableEq, Repr

/-- The user-visible outcome of a MIDI upload: a success toast with the
number of loaded notes, or the destructive failure toast. -/
inductive UploadOutcome
  | success (loaded : Nat)
  | failure
deriving DecidableEq, Repr

/-- One iteration of the `track.notes.forEach` body of `handleMidiUpload`
(source lines 390-410): the accumulator carries `newNotes` and `maxColumn`.
The source's fresh random id is modelled by a position counter. -/
def importStep (acc : List Note × Int) (midiNote : MidiNote) :
    List Note × Int :=
  let start := ⌊midiNote.time * 4⌋
  let duration := ⌈midiNote.duration * 4⌉
  let rowIndex := jsIndexOf allNotes midiNote.name
  if rowIndex != -1 then
    (acc.1 ++
      [{ id := "note-" ++ toString acc.1.length, note := midiNote.name,
         start := start, duration := duration, rowIndex := rowIndex,
         colIndex := start, selected := false }],
     max acc.2 (start + duration))
  else acc

/-- Handler `handleMidiUpload` (source lines 378-429).  The file read and binary
decode are external; their result is the `Except` argument: `error` when
`new Midi(arrayBuffer)` throws. -/
def handleMidiUpload (parsed : Except String MidiFile) (s : PianoRollState) :
    PianoRollState × UploadOutcome :=
  match parsed with
  | .error _ => (s, .failure)
  | .ok midi =>
      let acc := midi.tracks.foldl (fun a track => track.foldl importStep a)
        ([], 0)
      ({ s with notes := acc.1,
                numberOfColumns := max s.numberOfColumns (acc.2 + 1) },
       .success acc.1.length)

/-- Source constant `baseNote` of `addPythagoreanChords`. -/
def pythagoreanBaseNote : String := "C4"

/-- Source constant `baseFrequency = 261.63` (Hz of C4). -/
def baseFrequency : ℚ := 261.63

/-- The hard-coded interval table of `addPythagoreanChords`. -/
def pythagoreanRatios : List (String × ℚ) :=
  [("Perfect Fourth", 4/3), ("Perfect Fifth", 3/2),
   ("Major Third", 81/64), ("Minor Third", 32/27)]

/-- Modelled from the spec: `Tone.Frequency(f).toNote()` is external to the
repository; per the spec it is "the audio library's frequency-to-note
utility" mapping a frequency to the nearest equal-tempered pitch name, i.e.
MIDI number `round(69 + 12*log2(f/440))`.  For a positive `f = p/q` that
round equals the largest `n` with `2^(2n) ≤ (f/440)^24 * 2^139`, i.e. with
`4^n * 440^24 * q^24 ≤ p^24 * 2^139`, computed exactly by counting the
`n < 128` satisfying the monotone condition. -/
def midiOfFreq (f : ℚ) : Nat :=
  ((List.range 128).filter
    (fun n => 4 ^ n * 440 ^ 24 * f.den ^ 24 ≤ f.num.toNat ^ 24 * 2 ^ 139)).length
    - 1

/-- Modelled from the spec: the pitch name of a MIDI number in scientific
pitch, sharps spelling, as the audio library prints it (`60 ↦ C4`). -/
def toneFrequencyToNote (f : ℚ) : String :=
  let m := midiOfFreq f
  NOTES.getD (m % 12) "" ++ toString (m / 12 - 1)

/-- The `newChords` list built by `addPythagoreanChords` (source lines
442-468): one 4-column note per interval at column `4*index`, plus the
16-column base note at column 0. -/
def pythagoreanChordNotes : List Note :=
  (pythagoreanRatios.enum.map (fun p =>
    let index := p.1
    let frequency := baseFrequency * p.2.2
    let note := toneFrequencyToNote frequency
    ({ id := "pythagorean-" ++ toString index, note := note,
       start := (index : Int) * 4, duration := 4,
       rowIndex := jsIndexOf allNotes note, colIndex := (index : Int) * 4,
       selected := false } : Note))) ++
  [{ id := "pythagorean-base", note := pythagoreanBaseNote, start := 0,
     duration := 16, rowIndex := jsIndexOf allNotes pythagoreanBaseNote,
     colIndex := 0, selected := false }]

/-- Handler `addPythagoreanChords` (source lines 431-477): the chord notes are
appended to the existing collection. -/
def addPythagoreanChords (s : PianoRollState) : PianoRollState :=
  { s with notes := s.notes ++ pythagoreanChordNotes }

/-- The `splitNote` loop of the staff view (source lines 121-145), kept to
the piece durations: `while remaining > 0` emit `min(remaining, 4)`. -/
def splitNote (duration : ℚ) : List ℚ :=
  if duration ≤ 0 then []
  else if duration ≤ 4 then [duration]
  else 4 :: splitNote (duration - 4)
termination_by (⌈duration⌉).toNat
decreasing_by
  rename_i h0 h4
  push_neg at h0 h4
  have hle : duration ≤ (⌈duration⌉ : ℚ) := Int.le_ceil duration
  have h4' : (4 : ℤ) < ⌈duration⌉ := by exact_mod_cast lt_of_lt_of_le h4 hle
  have hsub : ⌈duration - 4⌉ = ⌈duration⌉ - 4 := by
    exact_mod_cast Int.ceil_sub_int duration (4 : ℤ)
  omega

/-! ### Invariants and test fixtures -/

/-- Spec invariant: every stored note has duration at least 1. -/
def durationsOk (l : List Note) : Prop := ∀ n ∈ l, 1 ≤ n.duration

/-- Spec invariant: a note's cached row index is consistent with its pitch
name — the pitch table entry at the row is the note's name. -/
def pitchRowConsistent (n : Note) : Prop := n.note = jsGet allNotes n.rowIndex

/-- All notes of a collection are row-consistent. -/
def rowsOk (l : List Note) : Prop := ∀ n ∈ l, pitchRowConsistent n

/-- The component's initial state: no notes, no gesture, 64 columns. -/
def initialState : PianoRollState :=
  { notes := [], isDragging := false, isResizing := false,
    selectedNote := none, numberOfColumns := initialColumns }

/-- A concrete note used by witnesses: row 2 of the table is `D2`. -/
def testNoteA : Note :=
  { id := "a", note := "D2", start := 2, duration := 3, rowIndex := 2,
    colIndex := 2, selected := true }

/-- A state in the middle of a resize gesture on `testNoteA`. -/
def testStateResize : PianoRollState :=
  { notes := [testNoteA], isDragging := false, isResizing := true,
    selectedNote := some testNoteA, numberOfColumns := 64 }

/-- A state in the middle of a drag gesture on `testNoteA`. -/
def testStateDrag : PianoRollState :=
  { notes := [testNoteA], isDragging := true, isResizing := false,
    selectedNote := some testNoteA, numberOfColumns := 64 }

/-- A parsed MIDI file whose single decoded note has zero length. -/
def zeroDurMidi : MidiFile := { tracks := [[⟨"C4", 0, 0⟩]] }

/-- A parsed MIDI file with one well-formed decoded note. -/
def smallMidi : MidiFile := { tracks := [[⟨"C4", 0, 1/8⟩]] }

/-- A parsed MIDI file none of whose decoded pitches is in the 7-octave
table (`H9` is not a pitch name). -/
def unmatchedMidi : MidiFile := { tracks := [[⟨"H9", 0, 1⟩], [⟨"Z1", 2, 1⟩]] }

/-! ### Helper lemmas -/

theorem jsIndexOf_of_not_mem {l : List String} {s : String} (h : s ∉ l) :
    jsIndexOf l s = -1 := by
  unfold jsIndexOf
  have hf : l.findIdx? (fun t => t == s) = none := by
    rw [List.findIdx?_eq_none_iff]
    intro x hx
    rw [beq_eq_false_iff_ne]
    rintro rfl
    exact h hx
  rw [hf]

theorem jsGet_jsIndexOf {l : List String} {s : String}
    (h : jsIndexOf l s ≠ -1) : jsGet l (jsIndexOf l s) = s := by
  unfold jsIndexOf at h ⊢
  cases hf : l.findIdx? (fun t => t == s) with
  | none => rw [hf] at h; exact absurd rfl h
  | some n =>
    obtain ⟨hlt, hp, -⟩ := List.findIdx?_eq_some_iff_getElem.mp hf
    have h0 : ¬((n : Int) < 0) := by omega
    unfold jsGet
    rw [if_neg h0, Int.toNat_natCast, List.getD_eq_getElem?_getD,
      List.getElem?_eq_getElem hlt]
    simpa using hp

/-! ### Claim theorems -/

/-- C7: if MIDI parsing fails (the decoder throws), the handler reports the
user-visible failure outcome and leaves the whole state — notes and column
count included — unmodified. -/
theorem C7_midi_parse_failure (e : String) (s : PianoRollState) :
    handleMidiUpload (Except.error e) s = (s, UploadOutcome.failure) := rfl

/-- C9: the frequency computed for the Perfect Fifth entry of the
Pythagorean table (base C4 at 261.63 Hz, ratio 3/2) is exactly 392.445 Hz
before name conversion. -/
theorem C9_perfect_fifth_frequency :
    pythagoreanRatios.getD 1 ("", 0) = ("Perfect Fifth", 3/2) ∧
      baseFrequency * (pythagoreanRatios.getD 1 ("", 0)).2 = 392.445 := by
  constructor
  · with_unfolding_all rfl
  · with_unfolding_all rfl

/-- C2: during a resize gesture (resize mode on, drag mode off, a selected
note), after a pointer-move every stored note carrying the selected note's
id has duration `max 1 (pointerColumn - startColumn + 1)` — the number of
grid columns from the note's start through the pointer's column, floored at
1, for every pointer position including those left of the start. -/
theorem C2_resize_duration (x y : ℚ) (s : PianoRollState) (sel : Note)
    (hsel : s.selectedNote = some sel) (hdrag : s.isDragging = false)
    (hres : s.isResizing = true) :
    ∀ m ∈ (handleMouseMove x y s).notes, m.id = sel.id →
      m.duration = max 1 (gridCol x - sel.colIndex + 1) ∧ 1 ≤ m.duration := by
  unfold handleMouseMove
  rw [hsel, hdrag, hres]
  simp only [Bool.false_eq_true, if_false, if_true]
  intro m hm hid
  obtain ⟨n, hn, rfl⟩ := List.mem_map.mp hm
  by_cases hb : n.id == sel.id
  · rw [if_pos hb]
    exact ⟨rfl, le_max_left _ _⟩
  · rw [if_neg hb] at hid ⊢
    exact absurd hid (by simpa using hb)

/-- C2 witness: concrete resize with the pointer left of the note's start
(column 0, start 2) clamps the duration to 1. -/
theorem C2_resize_duration_witness :
    ({ testNoteA with duration := 1 } : Note).duration =
        max 1 (gridCol 10 - testNoteA.colIndex + 1) ∧
      1 ≤ ({ testNoteA with duration := 1 } : Note).duration :=
  C2_resize_duration 10 0 testStateResize testNoteA rfl rfl rfl
    { testNoteA with duration := 1 }
    (by with_unfolding_all decide) rfl

/-- C8: the staff view's duration splitting: a positive beat-unit duration
`d` is cut into pieces that sum to `d`, each positive and at most 4
beat-units, and a duration of at most 4 stays a single piece. -/
theorem C8_split_durations (d : ℚ) (hd : 0 < d) :
    (splitNote d).sum = d ∧ (∀ p ∈ splitNote d, 0 < p ∧ p ≤ 4) ∧
      (d ≤ 4 → splitNote d = [d]) := by
  induction d using splitNote.induct with
  | case1 d h0 => exact absurd hd (by linarith)
  | case2 d h0 h4 =>
    rw [splitNote, if_neg h0, if_pos h4]
    push_neg at h0
    refine ⟨List.sum_singleton, ?_, fun _ => rfl⟩
    intro p hp
    rw [List.mem_singleton] at hp
    exact ⟨hp ▸ h0, hp ▸ h4⟩
  | case3 d h0 h4 ih =>
    push_neg at h4
    obtain ⟨ihsum, ihmem, -⟩ := ih (by linarith)
    rw [splitNote, if_neg h0, if_neg (by linarith)]
    refine ⟨?_, ?_, fun hle => absurd hle (by linarith)⟩
    · rw [List.sum_cons, ihsum]; ring
    · intro p hp
      rcases List.mem_cons.mp hp with rfl | hp
      · norm_num
      · exact ihmem p hp

/-- C8 witness: a 9-beat-unit note sums back to 9, and is not forced into
one piece (9 > 4); a concrete in-range duration also stays intact. -/
theorem C8_split_durations_witness :
    (splitNote 9).sum = 9 ∧ ((9 : ℚ) ≤ 4 → splitNote 9 = [9]) :=
  ⟨(C8_split_durations 9 (by norm_num)).1,
   (C8_split_durations 9 (by norm_num)).2.2⟩

/-- C5: when a click falls on no existing note (and no gesture is active),
placing the new note at a column at least `numberOfColumns - 1` grows the
column count by exactly 50, and placing it at any smaller column leaves the
column count unchanged. -/
theorem C5_autogrow_by_fifty (x y : ℚ) (newId : String) (s : PianoRollState)
    (hmiss : ∀ n ∈ s.notes, hitTest (gridRow y) (gridCol x) n = false)
    (hdrag : s.isDragging = false) (hres : s.isResizing = false) :
    (s.numberOfColumns - 1 ≤ gridCol x →
      (handleCanvasClick x y newId s).numberOfColumns =
        s.numberOfColumns + 50) ∧
    (gridCol x < s.numberOfColumns - 1 →
      (handleCanvasClick x y newId s).numberOfColumns = s.numberOfColumns) := by
  have hfind : s.notes.find? (hitTest (gridRow y) (gridCol x)) = none :=
    List.find?_eq_none.mpr (fun n hn => by simp [hmiss n hn])
  constructor
  · intro h
    simp only [handleCanvasClick, hfind, hdrag, hres]
    rw [if_pos (show (!false && !false) = true from rfl), if_pos h]
  · intro h
    simp only [handleCanvasClick, hfind, hdrag, hres]
    rw [if_pos (show (!false && !false) = true from rfl),
      if_neg (by omega : ¬ s.numberOfColumns - 1 ≤ gridCol x)]

/-- C5 witness: from the initial 64-column state, a click at pixel
x = 1600 (grid column 64 ≥ 63) grows the grid to 114 columns. -/
theorem C5_autogrow_by_fifty_witness :
    (handleCanvasClick 1600 0 "nid" initialState).numberOfColumns =
      initialState.numberOfColumns + 50 :=
  (C5_autogrow_by_fifty 1600 0 "nid" initialState
    (by intro n hn; simp [initialState] at hn) rfl rfl).1
    (by with_unfolding_all decide)

/-- C10: no operation ever decreases the column count: clear-all, random
add, pointer down/move/up, MIDI import (success or failure), click
placement and chord generation all leave `numberOfColumns` at least its
prior value. -/
theorem C10_columns_never_decrease (x y r1 r2 r3 : ℚ) (newId : String)
    (parsed : Except String MidiFile) (s : PianoRollState) :
    s.numberOfColumns ≤ (clearAllNotes s).numberOfColumns ∧
    s.numberOfColumns ≤ (addRandomNote r1 r2 r3 newId s).numberOfColumns ∧
    s.numberOfColumns ≤ (handleMouseDown x y s).numberOfColumns ∧
    s.numberOfColumns ≤ (handleMouseMove x y s).numberOfColumns ∧
    s.numberOfColumns ≤ (handleMouseUp s).numberOfColumns ∧
    s.numberOfColumns ≤ (handleMidiUpload parsed s).1.numberOfColumns ∧
    s.numberOfColumns ≤ (handleCanvasClick x y newId s).numberOfColumns ∧
    s.numberOfColumns ≤ (addPythagoreanChords s).numberOfColumns := by
  refine ⟨le_refl _, le_refl _, ?_, ?_, le_refl _, ?_, ?_, le_refl _⟩
  · cases hf : s.notes.find? (hitTest (gridRow y) (gridCol x)) with
    | none => simp [handleMouseDown, hf]
    | some n =>
      simp only [handleMouseDown, hf]
      split <;> exact le_refl _
  · cases hsel : s.selectedNote with
    | none => simp [handleMouseMove, hsel]
    | some sel =>
      simp only [handleMouseMove, hsel]
      split
      · exact le_refl _
      · split <;> exact le_refl _
  · cases parsed with
    | error e => exact le_refl _
    | ok midi => exact le_max_left _ _
  · cases hf : s.notes.find? (hitTest (gridRow y) (gridCol x)) with
    | some n => simp [handleCanvasClick, hf]
    | none =>
      simp only [handleCanvasClick, hf]
      split
      · split
        · dsimp only
          omega
        · exact le_refl _
      · exact le_refl _

/-- C1: a click targets the grid cell `(⌊x/25⌋, ⌊y/25⌋)`; if some existing
note's row matches and its column span `[colIndex, colIndex + duration)`
contains the clicked column, a matching note is selected exclusively and no
note is created; otherwise, with no gesture active, a fresh one-column
selected note is created at the clicked cell and every other note is
deselected. -/
theorem C1_click_select_or_create (x y : ℚ) (newId : String)
    (s : PianoRollState) :
    gridCol x = ⌊x / CELL_SIZE⌋ ∧ gridRow y = ⌊y / CELL_SIZE⌋ ∧
    ((∃ n ∈ s.notes, hitTest (gridRow y) (gridCol x) n = true) →
      ∃ n ∈ s.notes, hitTest (gridRow y) (gridCol x) n = true ∧
        (handleCanvasClick x y newId s).notes =
          s.notes.map (fun m => { m with selected := m.id == n.id }) ∧
        (handleCanvasClick x y newId s).notes.length = s.notes.length) ∧
    ((∀ n ∈ s.notes, hitTest (gridRow y) (gridCol x) n = false) →
      s.isDragging = false → s.isResizing = false →
      (handleCanvasClick x y newId s).notes =
        s.notes.map deselect ++
          [{ id := newId, note := jsGet allNotes (gridRow y),
             start := gridCol x, duration := 1, rowIndex := gridRow y,
             colIndex := gridCol x, selected := true }]) := by
  refine ⟨rfl, rfl, ?_, ?_⟩
  · intro hex
    have hsome : (s.notes.find? (hitTest (gridRow y) (gridCol x))).isSome :=
      List.find?_isSome.mpr
        (by obtain ⟨n, hn, hp⟩ := hex; exact ⟨n, hn, hp⟩)
    obtain ⟨n, hfind⟩ := Option.isSome_iff_exists.mp hsome
    refine ⟨n, List.mem_of_find?_eq_some hfind, List.find?_some hfind,
      ?_, ?_⟩
    · simp only [handleCanvasClick, hfind]
    · simp only [handleCanvasClick, hfind]
      exact List.length_map _ _
  · intro hmiss hdrag hres
    have hfind : s.notes.find? (hitTest (gridRow y) (gridCol x)) = none :=
      List.find?_eq_none.mpr (fun n hn => by simp [hmiss n hn])
    simp only [handleCanvasClick, hfind, hdrag, hres]
    rw [if_pos (show (!false && !false) = true from rfl)]

/-- C1 witness: a click at pixel (30, 55) on the empty initial state
creates the one-column selected note at cell (1, 2). -/
theorem C1_click_select_or_create_witness :
    (handleCanvasClick 30 55 "new-note" initialState).notes =
      initialState.notes.map deselect ++
        [{ id := "new-note", note := jsGet allNotes (gridRow 55),
           start := gridCol 30, duration := 1, rowIndex := gridRow 55,
           colIndex := gridCol 30, selected := true }] :=
  (C1_click_select_or_create 30 55 "new-note" initialState).2.2.2
    (by intro n hn; simp [initialState] at hn) rfl rfl

theorem importStep_miss (acc : List Note × Int) (mn : MidiNote)
    (h : mn.name ∉ allNotes) : importStep acc mn = acc := by
  unfold importStep
  rw [jsIndexOf_of_not_mem h]
  simp

theorem foldl_importStep_miss (track : List MidiNote)
    (acc : List Note × Int) (h : ∀ mn ∈ track, mn.name ∉ allNotes) :
    track.foldl importStep acc = acc := by
  induction track generalizing acc with
  | nil => rfl
  | cons mn t ih =>
    rw [List.foldl_cons, importStep_miss acc mn (h mn (List.mem_cons_self mn t))]
    exact ih acc (fun m hm => h m (List.mem_cons_of_mem _ hm))

theorem foldl_tracks_miss (tracks : List (List MidiNote))
    (acc : List Note × Int)
    (h : ∀ t ∈ tracks, ∀ mn ∈ t, mn.name ∉ allNotes) :
    tracks.foldl (fun a track => track.foldl importStep a) acc = acc := by
  induction tracks generalizing acc with
  | nil => rfl
  | cons t ts ih =>
    rw [List.foldl_cons,
      foldl_importStep_miss t acc (h t (List.mem_cons_self t ts))]
    exact ih acc (fun t' ht' => h t' (List.mem_cons_of_mem _ ht'))

/-- C6: a MIDI file that parses but whose decoded pitch names all miss the
7-octave table imports as the empty collection (replacing the previous
notes) and leaves the column count at its prior value. -/
theorem C6_midi_no_matching_pitches (midi : MidiFile) (s : PianoRollState)
    (hmiss : ∀ t ∈ midi.tracks, ∀ mn ∈ t, mn.name ∉ allNotes)
    (hcols : 1 ≤ s.numberOfColumns) :
    (handleMidiUpload (Except.ok midi) s).1.notes = [] ∧
    (handleMidiUpload (Except.ok midi) s).1.numberOfColumns =
      s.numberOfColumns := by
  have hfold := foldl_tracks_miss midi.tracks ([], 0) hmiss
  constructor
  · simp only [handleMidiUpload, hfold]
  · simp only [handleMidiUpload, hfold]
    rw [zero_add]
    exact max_eq_left hcols

/-- C6 witness: importing a two-track file of out-of-range pitch names over
the initial state yields no notes and keeps the 64 columns. -/
theorem C6_midi_no_matching_pitches_witness :
    (handleMidiUpload (Except.ok unmatchedMidi) initialState).1.notes = [] ∧
    (handleMidiUpload (Except.ok unmatchedMidi)
        initialState).1.numberOfColumns = initialState.numberOfColumns :=
  C6_midi_no_matching_pitches unmatchedMidi initialState
    (by with_unfolding_all decide) (by with_unfolding_all decide)

/-- C3 counterexample: importing a successfully parsed MIDI file whose one
decoded note has zero length (`Math.ceil(0 * 4) = 0`) stores a note of
duration 0, breaking the duration ≥ 1 invariant the claim asserts for the
MIDI import path. -/
theorem C3_duration_invariant_counterexample :
    (handleMidiUpload (Except.ok zeroDurMidi) initialState).1.notes.map
        Note.duration = [0] ∧
      ¬ durationsOk
        (handleMidiUpload (Except.ok zeroDurMidi) initialState).1.notes := by
  constructor
  · with_unfolding_all rfl
  · simp only [durationsOk]
    with_unfolding_all decide

theorem foldl_importStep_durations (track : List MidiNote)
    (acc : List Note × Int) (hacc : durationsOk acc.1)
    (h : ∀ mn ∈ track, 0 < mn.duration) :
    durationsOk (track.foldl importStep acc).1 := by
  induction track generalizing acc with
  | nil => exact hacc
  | cons mn t ih =>
    rw [List.foldl_cons]
    refine ih _ ?_ (fun m hm => h m (List.mem_cons_of_mem _ hm))
    simp only [importStep]
    split
    · intro n hn
      rcases List.mem_append.mp hn with hn | hn
      · exact hacc n hn
      · rw [List.mem_singleton] at hn
        subst hn
        have hpos : 0 < mn.duration * 4 := by
          have := h mn (List.mem_cons_self mn t)
          positivity
        exact Int.ceil_pos.mpr hpos
    · exact hacc

theorem foldl_tracks_durations (tracks : List (List MidiNote))
    (acc : List Note × Int) (hacc : durationsOk acc.1)
    (h : ∀ t ∈ tracks, ∀ mn ∈ t, 0 < mn.duration) :
    durationsOk
      (tracks.foldl (fun a track => track.foldl importStep a) acc).1 := by
  induction tracks generalizing acc with
  | nil => exact hacc
  | cons t ts ih =>
    rw [List.foldl_cons]
    exact ih _
      (foldl_importStep_durations t acc hacc (h t (List.mem_cons_self t ts)))
      (fun t' ht' => h t' (List.mem_cons_of_mem _ ht'))

theorem pythagoreanChordNotes_durations : durationsOk pythagoreanChordNotes := by
  simp only [durationsOk]
  with_unfolding_all decide

/-- C3 amended: every note-creating or note-mutating operation keeps every
stored note's duration at least 1 — click placement, random add (random
draw nonnegative), drag and resize, chord generation, clear-all, and the
MIDI path *provided every decoded MIDI note has positive length*; a decoded
note of zero length escapes the invariant (see the counterexample). -/
theorem C3_duration_invariant_amended (x y r1 r2 r3 : ℚ) (newId e : String)
    (midi : MidiFile) (s : PianoRollState)
    (hok : durationsOk s.notes) (hr3 : 0 ≤ r3)
    (hpos : ∀ t ∈ midi.tracks, ∀ mn ∈ t, 0 < mn.duration) :
    durationsOk (handleCanvasClick x y newId s).notes ∧
    durationsOk (addRandomNote r1 r2 r3 newId s).notes ∧
    durationsOk (handleMouseMove x y s).notes ∧
    durationsOk (handleMidiUpload (Except.error e) s).1.notes ∧
    durationsOk (handleMidiUpload (Except.ok midi) s).1.notes ∧
    durationsOk (clearAllNotes s).notes ∧
    durationsOk (addPythagoreanChords s).notes := by
  refine ⟨?_, ?_, ?_, hok, ?_, ?_, ?_⟩
  · cases hf : s.notes.find? (hitTest (gridRow y) (gridCol x)) with
    | some n =>
      simp only [handleCanvasClick, hf]
      intro m hm
      obtain ⟨m', hm', rfl⟩ := List.mem_map.mp hm
      exact hok m' hm'
    | none =>
      simp only [handleCanvasClick, hf]
      split
      · intro m hm
        rcases List.mem_append.mp hm with hm | hm
        · obtain ⟨m', hm', rfl⟩ := List.mem_map.mp hm
          exact hok m' hm'
        · rw [List.mem_singleton] at hm
          subst hm
          exact le_refl 1
      · exact hok
  · intro m hm
    simp only [addRandomNote] at hm
    rcases List.mem_append.mp hm with hm | hm
    · exact hok m hm
    · rw [List.mem_singleton] at hm
      subst hm
      have : (0 : Int) ≤ ⌊r3 * 4⌋ := Int.floor_nonneg.mpr (by positivity)
      simpa using this
  · cases hsel : s.selectedNote with
    | none => simp only [handleMouseMove, hsel]; exact hok
    | some sel =>
      simp only [handleMouseMove, hsel]
      split
      · intro m hm
        obtain ⟨m', hm', rfl⟩ := List.mem_map.mp hm
        split
        · exact hok m' hm'
        · exact hok m' hm'
      · split
        · intro m hm
          obtain ⟨m', hm', rfl⟩ := List.mem_map.mp hm
          split
          · exact le_max_left _ _
          · exact hok m' hm'
        · exact hok
  · simp only [handleMidiUpload]
    exact foldl_tracks_durations midi.tracks ([], 0) (by intro n hn; simp at hn)
      hpos
  · intro n hn
    simp only [clearAllNotes] at hn
    simp at hn
  · intro n hn
    simp only [addPythagoreanChords] at hn
    rcases List.mem_append.mp hn with hn | hn
    · exact hok n hn
    · exact pythagoreanChordNotes_durations n hn

/-- C3 witness: importing a parsed file with one eighth-note-length decoded
note over the initial state satisfies the duration invariant. -/
theorem C3_duration_invariant_amended_witness :
    durationsOk (handleMidiUpload (Except.ok smallMidi) initialState).1.notes :=
  (C3_duration_invariant_amended 0 0 0 0 0 "i" "e" smallMidi initialState
    (by intro n hn; simp [initialState] at hn) (le_refl 0)
    (by
      intro t ht mn hmn
      simp only [smallMidi] at ht
      rw [List.mem_singleton] at ht
      subst ht
      rw [List.mem_singleton] at hmn
      subst hmn
      norm_num)).2.2.2.2.1

theorem foldl_importStep_rows (track : List MidiNote)
    (acc : List Note × Int) (hacc : rowsOk acc.1) :
    rowsOk (track.foldl importStep acc).1 := by
  induction track generalizing acc with
  | nil => exact hacc
  | cons mn t ih =>
    rw [List.foldl_cons]
    refine ih _ ?_
    simp only [importStep]
    split
    · next hne =>
      intro n hn
      rcases List.mem_append.mp hn with hn | hn
      · exact hacc n hn
      · rw [List.mem_singleton] at hn
        subst hn
        exact (jsGet_jsIndexOf (by simpa using hne)).symm
    · exact hacc

theorem foldl_tracks_rows (tracks : List (List MidiNote))
    (acc : List Note × Int) (hacc : rowsOk acc.1) :
    rowsOk (tracks.foldl (fun a track => track.foldl importStep a) acc).1 := by
  induction tracks generalizing acc with
  | nil => exact hacc
  | cons t ts ih =>
    rw [List.foldl_cons]
    exact ih _ (foldl_importStep_rows t acc hacc)

theorem pythagoreanChordNotes_rows : rowsOk pythagoreanChordNotes := by
  simp only [rowsOk, pitchRowConsistent]
  with_unfolding_all decide

/-- C4: every mutation path that sets a note's pitch or row leaves each
affected note's cached `rowIndex` consistent with its pitch name (the
pitch-table entry at `rowIndex` is `note`): click creation, drag, random
add, MIDI import and Pythagorean chord generation all preserve consistency
of the whole collection, and dragging the selected note rewrites both its
row and its pitch name to the pointer row's table entry. -/
theorem C4_row_pitch_consistency (x y r1 r2 r3 : ℚ) (newId e : String)
    (midi : MidiFile) (s : PianoRollState) (hok : rowsOk s.notes) :
    rowsOk (handleCanvasClick x y newId s).notes ∧
    rowsOk (handleMouseMove x y s).notes ∧
    rowsOk (addRandomNote r1 r2 r3 newId s).notes ∧
    rowsOk (handleMidiUpload (Except.error e) s).1.notes ∧
    rowsOk (handleMidiUpload (Except.ok midi) s).1.notes ∧
    rowsOk (clearAllNotes s).notes ∧
    rowsOk (addPythagoreanChords s).notes ∧
    (∀ sel : Note, s.isDragging = true → s.selectedNote = some sel →
      ∀ m ∈ (handleMouseMove x y s).notes, m.id = sel.id →
        m.rowIndex = gridRow y ∧ m.note = jsGet allNotes (gridRow y)) := by
  refine ⟨?_, ?_, ?_, hok, ?_, ?_, ?_, ?_⟩
  · cases hf : s.notes.find? (hitTest (gridRow y) (gridCol x)) with
    | some n =>
      simp only [handleCanvasClick, hf]
      intro m hm
      obtain ⟨m', hm', rfl⟩ := List.mem_map.mp hm
      exact hok m' hm'
    | none =>
      simp only [handleCanvasClick, hf]
      split
      · intro m hm
        rcases List.mem_append.mp hm with hm | hm
        · obtain ⟨m', hm', rfl⟩ := List.mem_map.mp hm
          exact hok m' hm'
        · rw [List.mem_singleton] at hm
          subst hm
          rfl
      · exact hok
  · cases hsel : s.selectedNote with
    | none => simp only [handleMouseMove, hsel]; exact hok
    | some sel =>
      simp only [handleMouseMove, hsel]
      split
      · intro m hm
        obtain ⟨m', hm', rfl⟩ := List.mem_map.mp hm
        split
        · rfl
        · exact hok m' hm'
      · split
        · intro m hm
          obtain ⟨m', hm', rfl⟩ := List.mem_map.mp hm
          split
          · exact hok m' hm'
          · exact hok m' hm'
        · exact hok
  · intro m hm
    simp only [addRandomNote] at hm
    rcases List.mem_append.mp hm with hm | hm
    · exact hok m hm
    · rw [List.mem_singleton] at hm
      subst hm
      rfl
  · simp only [handleMidiUpload]
    exact foldl_tracks_rows midi.tracks ([], 0) (by intro n hn; simp at hn)
  · intro n hn
    simp only [clearAllNotes] at hn
    simp at hn
  · intro n hn
    simp only [addPythagoreanChords] at hn
    rcases List.mem_append.mp hn with hn | hn
    · exact hok n hn
    · exact pythagoreanChordNotes_rows n hn
  · intro sel hdrag hsel
    simp only [handleMouseMove, hsel, hdrag, if_true]
    intro m hm hid
    obtain ⟨m', hm', rfl⟩ := List.mem_map.mp hm
    by_cases hb : m'.id == sel.id
    · rw [if_pos hb]
      exact ⟨rfl, rfl⟩
    · rw [if_neg hb] at hid ⊢
      exact absurd hid (by simpa using hb)

/-- C4 witness: dragging the selected note (row 2, `D2`) to pixel
(30, 130) moves it to row 5 and renames it to that row's pitch `F2`. -/
theorem C4_row_pitch_consistency_witness :
    ({ testNoteA with colIndex := 1, rowIndex := 5, note := "F2" } :
        Note).rowIndex = gridRow 130 ∧
      ({ testNoteA with colIndex := 1, rowIndex := 5, note := "F2" } :
        Note).note = jsGet allNotes (gridRow 130) :=
  (C4_row_pitch_consistency 30 130 0 0 0 "i" "e" ⟨[]⟩ testStateDrag
      (by
        intro n hn
        simp only [testStateDrag] at hn
        rw [List.mem_singleton] at hn
        subst hn
        simp only [pitchRowConsistent]
        with_unfolding_all decide)).2.2.2.2.2.2.2
    testNoteA rfl rfl
    { testNoteA with colIndex := 1, rowIndex := 5, note := "F2" }
    (by with_unfolding_all decide) rfl

end PianoRoll
